import Mathlib

/-!
Verification of the cross-package version-consistency validator of the
`publisher` tool (`src/tools/publisher/src/subcommand/fix_manifests/validate.rs`).

The pre-fix validator walks an ordered map from crate name to semantic
version and checks two group invariants: every `aws-smithy-` crate must
carry the version of `aws-smithy-types` (the runtime root), and every
SDK-category crate must carry the version of `aws-config` (the
distribution root) whenever that root is present; an SDK-category crate
without `aws-config` is itself an error. The post-fix validator delegates
entirely to an external package-discovery collaborator.
-/

deriving instance DecidableEq for Except

namespace SmithyRs.Publisher

/-- Semantic version, mirroring `semver::Version`: numeric major, minor,
patch components plus pre-release and build-metadata strings. Equality in
the `semver` crate is derived structurally over all five fields, which the
derived `DecidableEq` reproduces. -/
structure Version where
  major : Nat
  minor : Nat
  patch : Nat
  pre : String
  build : String
deriving DecidableEq, Repr

/-- A version with empty pre-release and build metadata. -/
def Version.simple (major minor patch : Nat) : Version :=
  { major := major, minor := minor, patch := patch, pre := "", build := "" }

/-- Rendering of a version, mirroring the `Display` implementation of
`semver::Version`: `major.minor.patch`, then `-pre` when the pre-release
part is nonempty, then `+build` when the build metadata is nonempty. -/
def Version.render (v : Version) : String :=
  toString v.major ++ "." ++ toString v.minor ++ "." ++ toString v.patch ++
    (if v.pre = "" then "" else "-" ++ v.pre) ++
    (if v.build = "" then "" else "+" ++ v.build)

/-- Bool-valued test that one character list starts with another. -/
def listStartsWith : List Char → List Char → Bool
  | _, [] => true
  | [], _ :: _ => false
  | c :: cs, d :: ds => c == d && listStartsWith cs ds

/-- `s.starts_with p` of Rust `str`, on the underlying character lists. -/
def starts_with (s p : String) : Bool :=
  listStartsWith s.data p.data

/-- The runtime-root crate name. -/
def smithy_root : String := "aws-smithy-types"

/-- The distribution-root crate name. -/
def sdk_root : String := "aws-config"

/-- Name prefix of runtime-group crates. -/
def smithy_pre : String := "aws-smithy-"

/-- Name prefix of generated SDK crates. -/
def aws_sdk_pre : String := "aws-sdk-"

/-- Name prefix of all AWS crates. -/
def aws_pre : String := "aws-"

/-- Modelled from the spec: the package categorizer
(`PackageCategory` in the publisher's `package` module, which is not part
of the provided sources). The spec describes a closed classification of
every crate name into runtime-shared-component, distribution-surface or
other, by longest-matching-prefix rules; the validator's own doc comment
and tests pin the prefixes down: `aws-smithy-` crates form the runtime
group, while `aws-sdk-` crates and the remaining `aws-` crates (such as
`aws-config` and `aws-types`) form the distribution surface. -/
inductive PackageCategory where
  | smithyRuntime
  | awsRuntime
  | awsSdk
  | unknown
deriving DecidableEq, Repr

/-- Modelled from the spec: total classification of a crate name, most
specific prefix first. -/
def PackageCategory.from_package_name (name : String) : PackageCategory :=
  if starts_with name smithy_pre then PackageCategory.smithyRuntime
  else if starts_with name aws_sdk_pre then PackageCategory.awsSdk
  else if starts_with name aws_pre then PackageCategory.awsRuntime
  else PackageCategory.unknown

/-- Modelled from the spec: the distribution-surface (SDK) categories are
the AWS runtime crates and the generated SDK crates. -/
def PackageCategory.is_sdk : PackageCategory → Bool
  | PackageCategory.awsRuntime => true
  | PackageCategory.awsSdk => true
  | _ => false

/-- The error message for a missing runtime root. -/
def missing_smithy_message : String := "`aws-smithy-types` crate missing"

/-- The error message for a missing distribution root. -/
def missing_sdk_message : String := "`aws-config` crate missing"

/-- The version-mismatch error message built by `confirm_version`. -/
def mismatch_message (name : String) (expected actual : Version) : String :=
  "Crate named `" ++ name ++ "` should be at version `" ++ expected.render ++
    "` but is at `" ++ actual.render ++ "`"

/-- `confirm_version` of `validate.rs`: fail with a mismatch message when
the expected and actual versions differ. -/
def confirm_version (name : String) (expected actual : Version) : Except String Unit :=
  if expected ≠ actual then
    Except.error (mismatch_message name expected actual)
  else
    Except.ok ()

/-- First-match lookup in an association list of crate versions. -/
def lookupEntry : List (String × Version) → String → Option Version
  | [], _ => none
  | (n, v) :: rest, k => if n = k then some v else lookupEntry rest k

/-- Strict lexicographic comparison of character lists, by code point. -/
def charListLt : List Char → List Char → Bool
  | _, [] => false
  | [], _ :: _ => true
  | c :: cs, d :: ds => Nat.blt c.toNat d.toNat || (c == d && charListLt cs ds)

/-- Strict lexicographic order on crate names, mirroring the `Ord`
instance on `String` that `BTreeMap` iterates by (byte-lexicographic,
which coincides with code-point order on the ASCII crate names). -/
def name_lt (a b : String) : Bool :=
  charListLt a.data b.data

theorem charListLt_irrefl (l : List Char) : charListLt l l = false := by
  induction l with
  | nil => rfl
  | cons c cs ih =>
      simp only [charListLt, ih, Bool.and_false, Bool.or_false]
      refine Bool.eq_false_iff.mpr fun h => ?_
      exact Nat.lt_irrefl _ (Nat.blt_eq ▸ h)

theorem name_lt_irrefl (a : String) : name_lt a a = false :=
  charListLt_irrefl a.data

/-- The `BTreeMap<String, Version>` input: an association list whose keys
are strictly increasing in lexicographic order, which is exactly the
iteration order and key-uniqueness guarantee of `BTreeMap`. -/
structure VersionMap where
  entries : List (String × Version)
  sorted_names : List.Pairwise (fun a b : String × Version => name_lt a.1 b.1 = true) entries

/-- `BTreeMap::get`. -/
def VersionMap.get (m : VersionMap) (k : String) : Option Version :=
  lookupEntry m.entries k

/-- The body of the per-package loop of `validate_before_fixes`, for one
`(name, version)` entry: runtime-group crates are checked against the
runtime-root version; otherwise, when `aws-config` is present SDK-category
crates are checked against its version, and when it is absent any
SDK-category crate is an error. -/
def check_package (maybe_sdk_version : Option Version) (expected_smithy_version : Version)
    (name : String) (version : Version) : Except String Unit :=
  let category := PackageCategory.from_package_name name
  if category = PackageCategory.smithyRuntime then
    confirm_version name expected_smithy_version version
  else
    match maybe_sdk_version with
    | some expected_sdk_version =>
        if category.is_sdk then confirm_version name expected_sdk_version version
        else Except.ok ()
    | none =>
        if category.is_sdk then Except.error missing_sdk_message
        else Except.ok ()

/-- The per-package loop of `validate_before_fixes`: apply `check_package`
to each entry in order, stopping at the first error. -/
def validate_packages (maybe_sdk_version : Option Version) (expected_smithy_version : Version) :
    List (String × Version) → Except String Unit
  | [] => Except.ok ()
  | (name, version) :: rest =>
      match check_package maybe_sdk_version expected_smithy_version name version with
      | Except.ok _ => validate_packages maybe_sdk_version expected_smithy_version rest
      | Except.error e => Except.error e

/-- `validate_before_fixes` of `validate.rs`: look up the optional
`aws-config` anchor, require the `aws-smithy-types` anchor, then run the
per-package loop over the map in ascending name order. -/
def validate_before_fixes (versions : VersionMap) : Except String Unit :=
  let maybe_sdk_version := versions.get sdk_root
  match versions.get smithy_root with
  | none => Except.error missing_smithy_message
  | some expected_smithy_version =>
      validate_packages maybe_sdk_version expected_smithy_version versions.entries

/-- A file-system handle; `validate_after_fixes` always passes `Fs::Real`. -/
inductive Fs where
  | real
deriving DecidableEq

/-- `validate_after_fixes` of `validate.rs`, parametrised by the external
collaborator `discover_and_validate_package_batches` (declared outside the
provided sources): invoke it on the real file system at the given location
and propagate its error with `?`, discarding its success value. -/
def validate_after_fixes {α : Type} (discover : Fs → String → Except String α)
    (location : String) : Except String Unit :=
  match discover Fs.real location with
  | Except.error e => Except.error e
  | Except.ok _ => Except.ok ()

/-- If every entry passes its per-package check, the loop succeeds. -/
theorem validate_packages_all_ok (o : Option Version) (sv : Version)
    (l : List (String × Version))
    (h : ∀ p ∈ l, check_package o sv p.1 p.2 = Except.ok ()) :
    validate_packages o sv l = Except.ok () := by
  induction l with
  | nil => rfl
  | cons hd tl ih =>
      obtain ⟨n, v⟩ := hd
      have hh : check_package o sv n v = Except.ok () := h (n, v) (List.mem_cons_self _ _)
      simp only [validate_packages, hh]
      exact ih fun p hp => h p (List.mem_cons_of_mem _ hp)

/-- Any error of the loop is the error of some entry's check. -/
theorem validate_packages_error_mem (o : Option Version) (sv : Version)
    (l : List (String × Version)) (e : String)
    (h : validate_packages o sv l = Except.error e) :
    ∃ p ∈ l, check_package o sv p.1 p.2 = Except.error e := by
  induction l with
  | nil => exact absurd h (by simp [validate_packages])
  | cons hd tl ih =>
      obtain ⟨n, v⟩ := hd
      simp only [validate_packages] at h
      cases hc : check_package o sv n v with
      | ok u =>
          rw [hc] at h
          obtain ⟨p, hp, hpe⟩ := ih h
          exact ⟨p, List.mem_cons_of_mem _ hp, hpe⟩
      | error e₂ =>
          rw [hc] at h
          cases h
          exact ⟨(n, v), List.mem_cons_self _ _, hc⟩

/-- If some entry's check fails, the loop fails. -/
theorem validate_packages_exists_error (o : Option Version) (sv : Version)
    (l : List (String × Version))
    (h : ∃ p ∈ l, ∃ e, check_package o sv p.1 p.2 = Except.error e) :
    ∃ e, validate_packages o sv l = Except.error e := by
  induction l with
  | nil => simp at h
  | cons hd tl ih =>
      obtain ⟨n, v⟩ := hd
      cases hc : check_package o sv n v with
      | ok u =>
          obtain ⟨p, hp, e, hpe⟩ := h
          rcases List.mem_cons.mp hp with heq | htl
          · subst heq; rw [hc] at hpe; cases hpe
          · obtain ⟨e₂, he₂⟩ := ih ⟨p, htl, e, hpe⟩
            exact ⟨e₂, by simp only [validate_packages, hc]; exact he₂⟩
      | error e₂ =>
          exact ⟨e₂, by simp only [validate_packages, hc]⟩

/-- On a name-sorted list, a failing entry all of whose strictly-smaller
names pass determines the loop's error: the first failure wins. -/
theorem validate_packages_first_error (o : Option Version) (sv : Version)
    (l : List (String × Version))
    (hsorted : List.Pairwise (fun a b : String × Version => name_lt a.1 b.1 = true) l)
    (n₁ : String) (v₁ : Version) (e₁ : String)
    (hmem : (n₁, v₁) ∈ l)
    (hfail : check_package o sv n₁ v₁ = Except.error e₁)
    (hbefore : ∀ p ∈ l, name_lt p.1 n₁ = true → check_package o sv p.1 p.2 = Except.ok ()) :
    validate_packages o sv l = Except.error e₁ := by
  induction l with
  | nil => cases hmem
  | cons hd tl ih =>
      obtain ⟨n, v⟩ := hd
      rw [List.pairwise_cons] at hsorted
      rcases List.mem_cons.mp hmem with heq | htl
      · obtain ⟨hn, hv⟩ := Prod.mk.injEq .. ▸ heq.symm
        subst hn; subst hv
        simp only [validate_packages, hfail]
      · have hlt : name_lt n n₁ = true := hsorted.1 (n₁, v₁) htl
        have hok : check_package o sv n v = Except.ok () :=
          hbefore (n, v) (List.mem_cons_self _ _) hlt
        simp only [validate_packages, hok]
        exact ih hsorted.2 htl fun p hp hplt => hbefore p (List.mem_cons_of_mem _ hp) hplt

/-- A crate of category *Other* passes its check vacuously. -/
theorem check_package_unknown_ok (o : Option Version) (sv : Version)
    (name : String) (version : Version)
    (h : PackageCategory.from_package_name name = PackageCategory.unknown) :
    check_package o sv name version = Except.ok () := by
  cases o <;> simp [check_package, h, PackageCategory.is_sdk]

/-- Any error of a single per-package check is either the missing
distribution-root message or a mismatch message for that crate. -/
theorem check_package_error_forms (o : Option Version) (sv : Version)
    (name : String) (version : Version) (e : String)
    (h : check_package o sv name version = Except.error e) :
    e = missing_sdk_message ∨
      ∃ x, x ≠ version ∧ e = mismatch_message name x version := by
  unfold check_package at h
  by_cases hcat : PackageCategory.from_package_name name = PackageCategory.smithyRuntime
  · simp only [hcat, if_pos rfl] at h
    unfold confirm_version at h
    by_cases hne : sv ≠ version
    · rw [if_pos hne] at h
      cases h
      exact Or.inr ⟨sv, hne, rfl⟩
    · rw [if_neg hne] at h; cases h
  · simp only [if_neg hcat] at h
    cases o with
    | none =>
        simp only at h
        by_cases hsdk : (PackageCategory.from_package_name name).is_sdk
        · rw [if_pos hsdk] at h; cases h; exact Or.inl rfl
        · rw [if_neg hsdk] at h; cases h
    | some dv =>
        simp only at h
        by_cases hsdk : (PackageCategory.from_package_name name).is_sdk
        · rw [if_pos hsdk] at h
          unfold confirm_version at h
          by_cases hne : dv ≠ version
          · rw [if_pos hne] at h
            cases h
            exact Or.inr ⟨dv, hne, rfl⟩
          · rw [if_neg hne] at h; cases h
        · rw [if_neg hsdk] at h; cases h

example :
    PackageCategory.from_package_name smithy_root = PackageCategory.smithyRuntime := by
  decide

example : PackageCategory.from_package_name sdk_root = PackageCategory.awsRuntime := by
  decide

example : (PackageCategory.from_package_name "aws-types").is_sdk = true := by
  decide

example : PackageCategory.from_package_name "http" = PackageCategory.unknown := by
  decide

/-- C1: for every version map with no `aws-smithy-types` entry,
`validate_before_fixes` fails with the missing-runtime-root error,
regardless of the map's other contents; by definition this happens before
the per-package loop is entered. -/
theorem missing_runtime_root_always_fails (m : VersionMap)
    (h : m.get smithy_root = none) :
    validate_before_fixes m = Except.error missing_smithy_message := by
  unfold validate_before_fixes
  rw [h]

/-- Witness for C1: a concrete map without `aws-smithy-types`. -/
def c1Map : VersionMap :=
  ⟨[(sdk_root, Version.simple 0 5 1), ("aws-sdk-s3", Version.simple 0 5 1)], by decide⟩

theorem missing_runtime_root_always_fails_witness :
    c1Map.get smithy_root = none ∧
      validate_before_fixes c1Map = Except.error missing_smithy_message :=
  ⟨by decide, missing_runtime_root_always_fails c1Map (by decide)⟩

/-- C6: `confirm_version` succeeds exactly when the expected and actual
versions agree literally in every semantic-version component: major,
minor, patch, pre-release and build metadata. -/
theorem confirm_version_iff_exact_equality (name : String) (expected actual : Version) :
    confirm_version name expected actual = Except.ok () ↔
      (expected.major = actual.major ∧ expected.minor = actual.minor ∧
       expected.patch = actual.patch ∧ expected.pre = actual.pre ∧
       expected.build = actual.build) := by
  constructor
  · intro h
    unfold confirm_version at h
    by_cases hne : expected ≠ actual
    · rw [if_pos hne] at h; cases h
    · push_neg at hne
      subst hne
      exact ⟨rfl, rfl, rfl, rfl, rfl⟩
  · intro h
    obtain ⟨h₁, h₂, h₃, h₄, h₅⟩ := h
    have : expected = actual := by
      cases expected; cases actual
      simp_all
    subst this
    simp [confirm_version]

/-- C8: the pre-fix validator is deterministic and depends only on the
contents of the version map: two maps with equal entry lists validate to
the same result, first failure included. The embedding is a pure function,
which also captures that the map is read-only. -/
theorem validate_before_fixes_deterministic (m m' : VersionMap)
    (h : m.entries = m'.entries) :
    validate_before_fixes m = validate_before_fixes m' := by
  cases m; cases m'
  cases h
  rfl

/-- Witness for C8: two separately constructed maps with the same entries. -/
def c8Map : VersionMap :=
  ⟨[(smithy_root, Version.simple 0 35 1)], by decide⟩

def c8Map' : VersionMap :=
  ⟨[(smithy_root, Version.simple 0 35 1)], List.pairwise_singleton _ _⟩

theorem validate_before_fixes_deterministic_witness :
    c8Map.entries = c8Map'.entries ∧
      validate_before_fixes c8Map = validate_before_fixes c8Map' :=
  ⟨rfl, validate_before_fixes_deterministic c8Map c8Map' rfl⟩

/-- C9: `validate_after_fixes` is equivalent to the single invocation of
the external collaborator at the given location on the real file system:
it succeeds exactly when the collaborator succeeds, and propagates the
collaborator's error unchanged, adding nothing of its own. -/
theorem validate_after_fixes_delegates {α : Type}
    (discover : Fs → String → Except String α) (location : String) :
    validate_after_fixes discover location =
        Except.map (fun _ => ()) (discover Fs.real location) ∧
      ((∃ x, discover Fs.real location = Except.ok x) ↔
        validate_after_fixes discover location = Except.ok ()) ∧
      (∀ e, discover Fs.real location = Except.error e →
        validate_after_fixes discover location = Except.error e) := by
  refine ⟨?_, ?_, ?_⟩
  · unfold validate_after_fixes
    cases discover Fs.real location <;> rfl
  · constructor
    · rintro ⟨x, hx⟩
      unfold validate_after_fixes
      rw [hx]
    · intro h
      unfold validate_after_fixes at h
      cases hd : discover Fs.real location with
      | ok x => exact ⟨x, rfl⟩
      | error e => rw [hd] at h; cases h
  · intro e he
    unfold validate_after_fixes
    rw [he]

/-- Witness for C9: a canned collaborator success and a canned failure. -/
theorem validate_after_fixes_delegates_witness :
    validate_after_fixes (fun _ _ => (Except.ok 0 : Except String Nat)) "repo" =
        Except.ok () ∧
      validate_after_fixes (fun _ _ => (Except.error "cycle" : Except String Nat)) "repo" =
        Except.error "cycle" :=
  ⟨((validate_after_fixes_delegates (fun _ _ => (Except.ok 0 : Except String Nat))
        "repo").2.1).mp ⟨0, rfl⟩,
    (validate_after_fixes_delegates (fun _ _ => (Except.error "cycle" : Except String Nat))
        "repo").2.2 "cycle" rfl⟩

/-- Crate names used in concrete checks. -/
def n_http : String := "aws-smithy-http"

def n_client : String := "aws-smithy-client"

def n_s3 : String := "aws-sdk-s3"

def n_types : String := "aws-types"

def n_zz : String := "aws-smithy-zz"

/-- C3: when the runtime root is present and a runtime-group crate carries
a version different from the runtime-root version while every other entry
passes its check, `validate_before_fixes` fails with exactly the mismatch
message naming that crate, the expected (runtime-root) version and the
actual version. -/
theorem runtime_mismatch_reported (m : VersionMap) (sv : Version)
    (name : String) (v : Version)
    (hanchor : m.get smithy_root = some sv)
    (hmem : (name, v) ∈ m.entries)
    (hcat : PackageCategory.from_package_name name = PackageCategory.smithyRuntime)
    (hne : v ≠ sv)
    (hothers : ∀ p ∈ m.entries, p ≠ (name, v) →
      check_package (m.get sdk_root) sv p.1 p.2 = Except.ok ()) :
    validate_before_fixes m = Except.error (mismatch_message name sv v) := by
  have hfail : check_package (m.get sdk_root) sv name v =
      Except.error (mismatch_message name sv v) := by
    have hc : confirm_version name sv v = Except.error (mismatch_message name sv v) := by
      unfold confirm_version
      rw [if_pos (Ne.symm hne)]
    simp [check_package, hcat, hc]
  have hbefore : ∀ p ∈ m.entries, name_lt p.1 name = true →
      check_package (m.get sdk_root) sv p.1 p.2 = Except.ok () := by
    intro p hp hlt
    refine hothers p hp fun hpe => ?_
    rw [hpe] at hlt
    rw [name_lt_irrefl] at hlt
    cases hlt
  unfold validate_before_fixes
  rw [hanchor]
  exact validate_packages_first_error (m.get sdk_root) sv m.entries m.sorted_names
    name v (mismatch_message name sv v) hmem hfail hbefore

/-- Witness map for C3, taken from the repository's own test: the runtime
group anchored at 0.35.1 with `aws-smithy-http` lagging at 0.35.0. -/
def c3Map : VersionMap :=
  ⟨[(n_client, Version.simple 0 35 1), (n_http, Version.simple 0 35 0),
    (smithy_root, Version.simple 0 35 1)], by decide⟩

theorem runtime_mismatch_reported_witness :
    validate_before_fixes c3Map =
      Except.error (mismatch_message n_http (Version.simple 0 35 1) (Version.simple 0 35 0)) :=
  runtime_mismatch_reported c3Map (Version.simple 0 35 1) n_http (Version.simple 0 35 0)
    (by decide) (by decide) (by decide) (by decide) (by decide)

/-- C4: with the runtime root present, a failing entry all of whose
lexicographic predecessors pass determines the reported error: validation
aborts at the first failure in the deterministic `BTreeMap` name order
instead of accumulating errors. -/
theorem first_failure_determines_error (m : VersionMap) (sv : Version)
    (n₁ : String) (v₁ : Version) (e₁ : String)
    (hanchor : m.get smithy_root = some sv)
    (hmem : (n₁, v₁) ∈ m.entries)
    (hfail : check_package (m.get sdk_root) sv n₁ v₁ = Except.error e₁)
    (hbefore : ∀ p ∈ m.entries, name_lt p.1 n₁ = true →
      check_package (m.get sdk_root) sv p.1 p.2 = Except.ok ()) :
    validate_before_fixes m = Except.error e₁ := by
  unfold validate_before_fixes
  rw [hanchor]
  exact validate_packages_first_error (m.get sdk_root) sv m.entries m.sorted_names
    n₁ v₁ e₁ hmem hfail hbefore

/-- Witness map for C4: two simultaneously mismatched crates,
`aws-smithy-http` (0.35.0) and `aws-smithy-zz` (0.34.0), against the
anchor 0.35.1; the lexicographically first of them is reported. -/
def c4Map : VersionMap :=
  ⟨[(n_client, Version.simple 0 35 1), (n_http, Version.simple 0 35 0),
    (smithy_root, Version.simple 0 35 1), (n_zz, Version.simple 0 34 0)], by decide⟩

theorem first_failure_determines_error_witness :
    validate_before_fixes c4Map =
      Except.error (mismatch_message n_http (Version.simple 0 35 1) (Version.simple 0 35 0)) :=
  first_failure_determines_error c4Map (Version.simple 0 35 1) n_http
    (Version.simple 0 35 0)
    (mismatch_message n_http (Version.simple 0 35 1) (Version.simple 0 35 0))
    (by decide) (by decide) (by decide) (by decide)

/-- Map refuting C2 as stated, taken from the repository's own test
suite: the runtime group is uniform at 0.35.1 and the distribution root is
present, yet `aws-sdk-s3` disagrees with `aws-config`. -/
def c2Cex : VersionMap :=
  ⟨[(sdk_root, Version.simple 0 5 1), (n_s3, Version.simple 0 5 0),
    (smithy_root, Version.simple 0 35 1), (n_types, Version.simple 0 5 1)], by decide⟩

/-- Counterexample to C2: every runtime-group crate matches the
runtime-root version and no SDK-category crate exists without
`aws-config`, yet pre-fix validation does not succeed (an SDK-category
crate may still disagree with the distribution root). -/
theorem uniform_runtime_group_claim_counterexample :
    c2Cex.get smithy_root = some (Version.simple 0 35 1) ∧
      (∀ p ∈ c2Cex.entries,
        PackageCategory.from_package_name p.1 = PackageCategory.smithyRuntime →
          p.2 = Version.simple 0 35 1) ∧
      (c2Cex.get sdk_root = none →
        ∀ p ∈ c2Cex.entries, (PackageCategory.from_package_name p.1).is_sdk = false) ∧
      validate_before_fixes c2Cex ≠ Except.ok () := by
  refine ⟨by decide, by decide, by decide, by decide⟩

/-- C2 as amended: pre-fix validation succeeds on every map in which the
runtime root is present, every runtime-group crate matches it, and every
SDK-category crate both has the distribution root available and matches
its version (which in particular rules out SDK-category crates without
`aws-config`). -/
theorem uniform_groups_validate_ok (m : VersionMap) (sv : Version)
    (hanchor : m.get smithy_root = some sv)
    (hsmithy : ∀ p ∈ m.entries,
      PackageCategory.from_package_name p.1 = PackageCategory.smithyRuntime → p.2 = sv)
    (hsdk : ∀ p ∈ m.entries, (PackageCategory.from_package_name p.1).is_sdk = true →
      m.get sdk_root = some p.2) :
    validate_before_fixes m = Except.ok () := by
  unfold validate_before_fixes
  rw [hanchor]
  refine validate_packages_all_ok (m.get sdk_root) sv m.entries fun p hp => ?_
  cases hcat : PackageCategory.from_package_name p.1 with
  | smithyRuntime =>
      have hv : p.2 = sv := hsmithy p hp hcat
      simp [check_package, hcat, confirm_version, hv]
  | awsRuntime =>
      have hg : m.get sdk_root = some p.2 := hsdk p hp (by rw [hcat]; rfl)
      simp [check_package, hcat, hg, PackageCategory.is_sdk, confirm_version]
  | awsSdk =>
      have hg : m.get sdk_root = some p.2 := hsdk p hp (by rw [hcat]; rfl)
      simp [check_package, hcat, hg, PackageCategory.is_sdk, confirm_version]
  | unknown => exact check_package_unknown_ok _ sv p.1 p.2 hcat

/-- Witness map for the amended C2: both groups uniform, both roots
present; this is the repository test's success case. -/
def c2Ok : VersionMap :=
  ⟨[(sdk_root, Version.simple 0 5 1), (n_s3, Version.simple 0 5 1),
    (smithy_root, Version.simple 0 35 1), (n_types, Version.simple 0 5 1)], by decide⟩

theorem uniform_groups_validate_ok_witness :
    validate_before_fixes c2Ok = Except.ok () :=
  uniform_groups_validate_ok c2Ok (Version.simple 0 35 1)
    (by decide) (by decide) (by decide)

/-- If every entry either passes or fails with one common error, and at
least one fails, the loop returns that common error. -/
theorem validate_packages_uniform_error (o : Option Version) (sv : Version)
    (l : List (String × Version)) (e : String)
    (h : ∀ p ∈ l, check_package o sv p.1 p.2 = Except.ok () ∨
      check_package o sv p.1 p.2 = Except.error e)
    (hex : ∃ p ∈ l, check_package o sv p.1 p.2 = Except.error e) :
    validate_packages o sv l = Except.error e := by
  induction l with
  | nil => simp at hex
  | cons hd tl ih =>
      obtain ⟨n, v⟩ := hd
      rcases h (n, v) (List.mem_cons_self _ _) with hok | herr
      · simp only [validate_packages, hok]
        refine ih (fun p hp => h p (List.mem_cons_of_mem _ hp)) ?_
        obtain ⟨p, hp, hpe⟩ := hex
        rcases List.mem_cons.mp hp with heq | htl
        · subst heq; rw [hok] at hpe; cases hpe
        · exact ⟨p, htl, hpe⟩
      · simp only [validate_packages, herr]

/-- An SDK-category crate is never a runtime-group crate. -/
theorem is_sdk_ne_smithy (c : PackageCategory) (h : c.is_sdk = true) :
    c ≠ PackageCategory.smithyRuntime := by
  cases c <;> simp_all [PackageCategory.is_sdk]

/-- With no `aws-config` anchor, an SDK-category crate's check is exactly
the missing-distribution-root error. -/
theorem check_package_sdk_no_anchor (sv : Version) (name : String) (version : Version)
    (h : (PackageCategory.from_package_name name).is_sdk = true) :
    check_package none sv name version = Except.error missing_sdk_message := by
  have hne := is_sdk_ne_smithy _ h
  simp [check_package, hne, h]

/-- Map refuting C5 as stated: `aws-types` is an SDK-category crate and
`aws-config` is absent, but the lexicographically earlier runtime-group
mismatch of `aws-smithy-zz` is reported instead of the missing anchor. -/
def c5Cex : VersionMap :=
  ⟨[(smithy_root, Version.simple 1 0 0), (n_zz, Version.simple 2 0 0),
    (n_types, Version.simple 1 0 0)], by decide⟩

/-- Counterexample to C5: a map with an SDK-category crate and no
`aws-config` entry on which `validate_before_fixes` fails with a version
mismatch, not with the missing-distribution-root error. -/
theorem missing_distribution_root_claim_counterexample :
    c5Cex.get sdk_root = none ∧
      ((n_types, Version.simple 1 0 0) ∈ c5Cex.entries ∧
        (PackageCategory.from_package_name n_types).is_sdk = true) ∧
      validate_before_fixes c5Cex ≠ Except.error missing_sdk_message ∧
      validate_before_fixes c5Cex =
        Except.error (mismatch_message n_zz (Version.simple 1 0 0) (Version.simple 2 0 0)) := by
  refine ⟨by decide, ⟨by decide, by decide⟩, by decide, by decide⟩

/-- C5 as amended: with an SDK-category crate present and `aws-config`
absent, `validate_before_fixes` always fails; the error is the
missing-distribution-root message provided every crate outside the SDK
categories passes its check (an earlier failure would be reported
instead); and conversely, the absence of `aws-config` with no SDK-category
crate present is not itself an error: validation then succeeds whenever
the runtime group is uniform. -/
theorem missing_distribution_root_amended (m : VersionMap) :
    ((∃ p ∈ m.entries, (PackageCategory.from_package_name p.1).is_sdk = true) →
      m.get sdk_root = none →
      ∃ e, validate_before_fixes m = Except.error e) ∧
    (∀ sv, m.get smithy_root = some sv →
      m.get sdk_root = none →
      (∃ p ∈ m.entries, (PackageCategory.from_package_name p.1).is_sdk = true) →
      (∀ p ∈ m.entries, (PackageCategory.from_package_name p.1).is_sdk = false →
        check_package none sv p.1 p.2 = Except.ok ()) →
      validate_before_fixes m = Except.error missing_sdk_message) ∧
    (∀ sv, m.get smithy_root = some sv →
      (∀ p ∈ m.entries, (PackageCategory.from_package_name p.1).is_sdk = false) →
      (∀ p ∈ m.entries,
        PackageCategory.from_package_name p.1 = PackageCategory.smithyRuntime → p.2 = sv) →
      validate_before_fixes m = Except.ok ()) := by
  refine ⟨?_, ?_, ?_⟩
  · rintro ⟨p, hp, hsdk⟩ hnone
    cases hq : m.get smithy_root with
    | none =>
        refine ⟨missing_smithy_message, ?_⟩
        unfold validate_before_fixes
        rw [hq]
    | some sv =>
        have hfail : check_package (m.get sdk_root) sv p.1 p.2 =
            Except.error missing_sdk_message := by
          rw [hnone]
          exact check_package_sdk_no_anchor sv p.1 p.2 hsdk
        obtain ⟨e, he⟩ := validate_packages_exists_error (m.get sdk_root) sv m.entries
          ⟨p, hp, missing_sdk_message, hfail⟩
        refine ⟨e, ?_⟩
        unfold validate_before_fixes
        rw [hq]
        exact he
  · intro sv hq hnone hex hpass
    unfold validate_before_fixes
    rw [hq, hnone]
    refine validate_packages_uniform_error none sv m.entries missing_sdk_message ?_ ?_
    · intro p hp
      by_cases hsdk : (PackageCategory.from_package_name p.1).is_sdk = true
      · exact Or.inr (check_package_sdk_no_anchor sv p.1 p.2 hsdk)
      · exact Or.inl (hpass p hp (Bool.eq_false_iff.mpr hsdk))
    · obtain ⟨p, hp, hsdk⟩ := hex
      exact ⟨p, hp, check_package_sdk_no_anchor sv p.1 p.2 hsdk⟩
  · intro sv hq hnosdk hsmithy
    unfold validate_before_fixes
    rw [hq]
    refine validate_packages_all_ok (m.get sdk_root) sv m.entries fun p hp => ?_
    cases hcat : PackageCategory.from_package_name p.1 with
    | smithyRuntime =>
        have hv : p.2 = sv := hsmithy p hp hcat
        simp [check_package, hcat, confirm_version, hv]
    | awsRuntime =>
        have := hnosdk p hp
        rw [hcat] at this
        cases this
    | awsSdk =>
        have := hnosdk p hp
        rw [hcat] at this
        cases this
    | unknown => exact check_package_unknown_ok _ sv p.1 p.2 hcat

/-- Witness map for parts of the amended C5 with an SDK-category crate
and no `aws-config`: scenario D of the spec. -/
def c5MapA : VersionMap :=
  ⟨[(smithy_root, Version.simple 0 35 1), (n_types, Version.simple 0 5 0)], by decide⟩

/-- Witness map without SDK-category crates and without `aws-config`. -/
def c5MapB : VersionMap :=
  ⟨[(smithy_root, Version.simple 0 35 1)], by decide⟩

theorem missing_distribution_root_amended_witness :
    validate_before_fixes c5MapA = Except.error missing_sdk_message ∧
      (∃ e, validate_before_fixes c5MapA = Except.error e) ∧
      validate_before_fixes c5MapB = Except.ok () :=
  ⟨(missing_distribution_root_amended c5MapA).2.1 (Version.simple 0 35 1)
      (by decide) (by decide) (by decide) (by decide),
    (missing_distribution_root_amended c5MapA).1 (by decide) (by decide),
    (missing_distribution_root_amended c5MapB).2.2 (Version.simple 0 35 1)
      (by decide) (by decide) (by decide)⟩

/-- On a sorted list, the head does not reappear in the tail. -/
theorem sorted_head_not_mem (a : String × Version) (l : List (String × Version))
    (hsorted : List.Pairwise (fun x y : String × Version => name_lt x.1 y.1 = true) (a :: l)) :
    a ∉ l := by
  intro hmem
  rw [List.pairwise_cons] at hsorted
  have := hsorted.1 a hmem
  rw [name_lt_irrefl] at this
  cases this

/-- Dropping entries of category *Other* from a sorted list does not
change the loop's result. -/
theorem validate_packages_drop_unknown (o : Option Version) (sv : Version)
    (l l' : List (String × Version)) (hsub : l.Sublist l')
    (hsorted : List.Pairwise (fun a b : String × Version => name_lt a.1 b.1 = true) l')
    (hextra : ∀ p ∈ l', p ∉ l →
      PackageCategory.from_package_name p.1 = PackageCategory.unknown) :
    validate_packages o sv l' = validate_packages o sv l := by
  induction hsub with
  | slnil => rfl
  | cons a hsub ih =>
      rename_i l₁ l₂
      have hnot : a ∉ l₁ := fun hmem =>
        sorted_head_not_mem a l₂ hsorted (hsub.subset hmem)
      have hcat : PackageCategory.from_package_name a.1 = PackageCategory.unknown :=
        hextra a (List.mem_cons_self _ _) hnot
      obtain ⟨n, v⟩ := a
      have hok := check_package_unknown_ok o sv n v hcat
      simp only [validate_packages, hok]
      exact ih (List.pairwise_cons.mp hsorted).2
        fun p hp hpl => hextra p (List.mem_cons_of_mem _ hp) hpl
  | cons₂ a hsub ih =>
      rename_i l₁ l₂
      obtain ⟨n, v⟩ := a
      have htl := (List.pairwise_cons.mp hsorted).2
      have hextra' : ∀ p ∈ l₂, p ∉ l₁ →
          PackageCategory.from_package_name p.1 = PackageCategory.unknown := by
        intro p hp hpl
        have hpa : p ≠ (n, v) := fun heq => by
          have := (List.pairwise_cons.mp hsorted).1 p hp
          rw [heq, name_lt_irrefl] at this
          cases this
        refine hextra p (List.mem_cons_of_mem _ hp) fun hmem => ?_
        rcases List.mem_cons.mp hmem with heq | hmem₁
        · exact hpa heq
        · exact hpl hmem₁
      cases hc : check_package o sv n v with
      | ok u => simp only [validate_packages, hc]; exact ih htl hextra'
      | error e => simp only [validate_packages, hc]

/-- Dropping entries of category *Other* does not change the lookup of a
key that is not of category *Other*. -/
theorem lookupEntry_drop_unknown (k : String)
    (hk : PackageCategory.from_package_name k ≠ PackageCategory.unknown)
    (l l' : List (String × Version)) (hsub : l.Sublist l')
    (hsorted : List.Pairwise (fun a b : String × Version => name_lt a.1 b.1 = true) l')
    (hextra : ∀ p ∈ l', p ∉ l →
      PackageCategory.from_package_name p.1 = PackageCategory.unknown) :
    lookupEntry l' k = lookupEntry l k := by
  induction hsub with
  | slnil => rfl
  | cons a hsub ih =>
      rename_i l₁ l₂
      have hnot : a ∉ l₁ := fun hmem =>
        sorted_head_not_mem a l₂ hsorted (hsub.subset hmem)
      have hcat : PackageCategory.from_package_name a.1 = PackageCategory.unknown :=
        hextra a (List.mem_cons_self _ _) hnot
      obtain ⟨n, v⟩ := a
      have hnk : n ≠ k := fun heq => hk (heq ▸ hcat)
      simp only [lookupEntry, if_neg hnk]
      exact ih (List.pairwise_cons.mp hsorted).2
        fun p hp hpl => hextra p (List.mem_cons_of_mem _ hp) hpl
  | cons₂ a hsub ih =>
      rename_i l₁ l₂
      obtain ⟨n, v⟩ := a
      have htl := (List.pairwise_cons.mp hsorted).2
      have hextra' : ∀ p ∈ l₂, p ∉ l₁ →
          PackageCategory.from_package_name p.1 = PackageCategory.unknown := by
        intro p hp hpl
        have hpa : p ≠ (n, v) := fun heq => by
          have := (List.pairwise_cons.mp hsorted).1 p hp
          rw [heq, name_lt_irrefl] at this
          cases this
        refine hextra p (List.mem_cons_of_mem _ hp) fun hmem => ?_
        rcases List.mem_cons.mp hmem with heq | hmem₁
        · exact hpa heq
        · exact hpl hmem₁
      by_cases hnk : n = k
      · simp only [lookupEntry, if_pos hnk]
      · simp only [lookupEntry, if_neg hnk]
        exact ih htl hextra'

/-- C7: enlarging a version map with any entries of category *Other*
(names classified neither runtime-group nor SDK), with arbitrary
versions, leaves the result of `validate_before_fixes` unchanged — in
particular its pass/fail outcome. -/
theorem other_packages_never_change_outcome (m m' : VersionMap)
    (hsub : m.entries.Sublist m'.entries)
    (hextra : ∀ p ∈ m'.entries, p ∉ m.entries →
      PackageCategory.from_package_name p.1 = PackageCategory.unknown) :
    validate_before_fixes m' = validate_before_fixes m := by
  have hsm : m'.get smithy_root = m.get smithy_root :=
    lookupEntry_drop_unknown smithy_root (by decide) m.entries m'.entries hsub
      m'.sorted_names hextra
  have hsd : m'.get sdk_root = m.get sdk_root :=
    lookupEntry_drop_unknown sdk_root (by decide) m.entries m'.entries hsub
      m'.sorted_names hextra
  unfold validate_before_fixes
  rw [hsm, hsd]
  cases hq : m.get smithy_root with
  | none => rfl
  | some sv =>
      exact validate_packages_drop_unknown (m.get sdk_root) sv m.entries m'.entries
        hsub m'.sorted_names hextra

/-- Witness maps for C7: the enlarged map adds the unconstrained crates
`http` and `serde` around the runtime root. -/
def c7Small : VersionMap :=
  ⟨[(smithy_root, Version.simple 0 35 1)], by decide⟩

def c7Big : VersionMap :=
  ⟨[(smithy_root, Version.simple 0 35 1), ("http", Version.simple 0 2 6),
    ("serde", Version.simple 1 0 140)], by decide⟩

theorem other_packages_never_change_outcome_witness :
    validate_before_fixes c7Big = validate_before_fixes c7Small ∧
      validate_before_fixes c7Small = Except.ok () :=
  ⟨other_packages_never_change_outcome c7Small c7Big (by decide) (by decide), by decide⟩

/-- C10: the error set of `validate_before_fixes` is closed: every error
it can return is the missing-runtime-root message, the
missing-distribution-root message, or a version-mismatch message as
produced by `confirm_version` for some crate name and pair of distinct
versions. -/
theorem error_set_closed (m : VersionMap) (e : String)
    (h : validate_before_fixes m = Except.error e) :
    e = missing_smithy_message ∨ e = missing_sdk_message ∨
      ∃ name expected actual, expected ≠ actual ∧
        e = mismatch_message name expected actual ∧
        confirm_version name expected actual = Except.error e := by
  unfold validate_before_fixes at h
  cases hq : m.get smithy_root with
  | none =>
      rw [hq] at h
      cases h
      exact Or.inl rfl
  | some sv =>
      rw [hq] at h
      obtain ⟨p, hp, hpe⟩ := validate_packages_error_mem (m.get sdk_root) sv m.entries e h
      rcases check_package_error_forms (m.get sdk_root) sv p.1 p.2 e hpe with h₁ | ⟨x, hx, hxe⟩
      · exact Or.inr (Or.inl h₁)
      · refine Or.inr (Or.inr ⟨p.1, x, p.2, hx, hxe, ?_⟩)
        unfold confirm_version
        rw [if_pos hx, hxe]

/-- Witness for C10: the empty map errors, and its error is one of the
three closed forms. -/
def c10Map : VersionMap :=
  ⟨[], List.Pairwise.nil⟩

theorem error_set_closed_witness :
    missing_smithy_message = missing_smithy_message ∨
      missing_smithy_message = missing_sdk_message ∨
      ∃ name expected actual, expected ≠ actual ∧
        missing_smithy_message = mismatch_message name expected actual ∧
        confirm_version name expected actual = Except.error missing_smithy_message :=
  error_set_closed c10Map missing_smithy_message (by decide)

end SmithyRs.Publisher
